import Mathlib

/-!
Verification of the gish directive-expansion and conversation-log engine.

The TypeScript sources embedded here:
  * src/importFiles.ts : the `#import` / `#diff` directive expander;
  * src/LLM.ts         : GptRequest (submitChat, fetch, appendToLog,
                         getPrviousRequests);
  * the LLM class (streaming and batch backend adapters).

Conventions of the shallow embedding:
  * a JavaScript string is a Lean String; line and token manipulation is
    done on String.data (List Char), mirroring the JS primitives used
    (String.prototype.split, String.prototype.trim, regex tests);
  * the file system is a function String → Option String (path ↦ contents);
    fs.readFileSync throwing is Option.none;
  * the JSON conversation-log file is modelled at the level of its parsed
    value: Option (List LogEntry), where none is "the file does not exist"
    (reading it throws) and some l is a file holding the JSON array l
    (JSON.stringify / JSON.parse round-trip is assumed, which is the shape
    the code itself always writes);
  * JS exceptions that escape a function are Option.none results.
-/

/-- JavaScript regex `\s` (the characters relevant to this code base:
whitespace that can occur in request text). -/
def jsSpace (c : Char) : Bool :=
  c = ' ' || c = '\t' || c = '\n' || c = '\r' || c = '\x0b' || c = '\x0c'

/-- One character of the directive path class `[~\w\\./]` of
importFiles.ts: `~`, word characters, backslash, dot, slash. -/
def pathChar (c : Char) : Bool :=
  c = '~' || c.isAlphanum || c = '_' || c = '\\' || c = '.' || c = '/'

/-- JS `str.split("\n")` on the character list: split at every newline;
the empty string yields `[""]`, a trailing newline yields a trailing
empty field. -/
def splitNlChars : List Char → List (List Char)
  | [] => [[]]
  | c :: cs =>
    if c = '\n' then [] :: splitNlChars cs
    else
      match splitNlChars cs with
      | [] => [[c]]
      | h :: t => (c :: h) :: t

/-- Inverse of `splitNlChars`: join fields with a newline. -/
def joinNlChars : List (List Char) → List Char
  | [] => []
  | [l] => l
  | l :: ls => l ++ '\n' :: joinNlChars ls

/-- JS `str.split("\n")` producing strings. -/
def splitNl (s : String) : List String :=
  (splitNlChars s.data).map String.mk

/-- Join lines with `"\n"` (the `modifiedLines.join("\n")` of
importFiles.ts). -/
def joinNl (ls : List String) : String :=
  String.mk (joinNlChars (ls.map String.data))

/-- Character scanner behind JS `str.split(/\s+/)`: `skipping` is true
while inside the whitespace run that just closed a field, `acc` holds
the current field reversed.  A whitespace character outside a run closes
the current field; the end of input closes the last field (so a leading
run yields a leading empty field and a trailing run a trailing empty
field, as in JS). -/
def splitWsGo : Bool → List Char → List Char → List (List Char)
  | _, acc, [] => [acc.reverse]
  | skipping, acc, c :: cs =>
    if jsSpace c then
      if skipping then splitWsGo true acc cs
      else acc.reverse :: splitWsGo true [] cs
    else splitWsGo false (c :: acc) cs

/-- JS `str.split(/\s+/)`: fields between maximal whitespace runs; a
leading (resp. trailing) whitespace run contributes a leading (resp.
trailing) empty field. -/
def splitWsChars (l : List Char) : List (List Char) :=
  splitWsGo false [] l

/-- JS `str.split(/\s+/)` on strings. -/
def splitWs (s : String) : List String :=
  (splitWsChars s.data).map String.mk

/-- The regex test of importFiles.ts, `/^\s*#import\s+[~\w\\./]+/` for
`kw = "#import"` and `/^\s*#diff\s+[~\w\\./]+/` for `kw = "#diff"`:
optional leading whitespace, the literal keyword, at least one whitespace
character, at least one path character.  The character classes are
disjoint from whitespace, so the greedy reading is the regex's only
reading. -/
def matchDirective (kw : List Char) (line : List Char) : Bool :=
  let rest := line.dropWhile jsSpace
  kw.isPrefixOf rest &&
    (let r2 := rest.drop kw.length
     !(r2.takeWhile jsSpace).isEmpty &&
       (match r2.dropWhile jsSpace with
        | [] => false
        | c :: _ => pathChar c))

/-- `line.match(/^\s*#import\s+[~\w\\./]+/)` is non-null. -/
def matchImport (line : String) : Bool :=
  matchDirective "#import".data line.data

/-- `line.match(/^\s*#diff\s+[~\w\\./]+/)` is non-null. -/
def matchDiff (line : String) : Bool :=
  matchDirective "#diff".data line.data

/-- The file-name extraction of importFiles.ts,
`const fname = line.split(/\s+/)[1]`: the second field of the
whitespace split (JS yields `undefined` when absent; on every matched
directive line the field exists, so the default is never significant). -/
def fnameOf (line : String) : String :=
  (splitWs line).getD 1 ""

/-- Modelled from the spec: `Utils.normalizePath` of src/utils.ts, whose
source is not among the provided files.  Per the spec's PathResolver
contract it expands a leading home-directory marker `~` to the user's
home directory and otherwise returns the path unchanged; `home` is the
current user's home directory. -/
def normalizePath (home : String) (rawPath : String) : String :=
  if "~".data.isPrefixOf rawPath.data then home ++ String.mk (rawPath.data.drop 1)
  else rawPath

/-- The loop body of `importFiles` (importFiles.ts): iterate over the
lines, splicing the contents of each `#import`/`#diff` file in place of
the directive line, recording `#diff` targets, and aborting on the first
unreadable file.  `fs` is the file system (`fs.readFileSync` returning
`none` models the thrown exception). -/
def importFilesGo (fs : String → Option String) (home : String) :
    List String → List String → List String → Bool × String × List String
  | [], modifiedLines, toDiffFiles => (true, joinNl modifiedLines, toDiffFiles)
  | line :: rest, modifiedLines, toDiffFiles =>
    if matchImport line || matchDiff line then
      let filePath := normalizePath home (fnameOf line)
      let toDiffFiles' :=
        if matchDiff line then toDiffFiles ++ [filePath] else toDiffFiles
      match fs filePath with
      | some fileContents =>
          importFilesGo fs home rest (modifiedLines ++ splitNl fileContents) toDiffFiles'
      | none => (false, "#import file " ++ filePath ++ " was not found", toDiffFiles')
    else importFilesGo fs home rest (modifiedLines ++ [line]) toDiffFiles

/-- `importFiles(content)` of importFiles.ts: returns
`[success, text, toDiffFiles]`. -/
def importFiles (fs : String → Option String) (home : String)
    (content : String) : Bool × String × List String :=
  importFilesGo fs home (splitNl content) [] []

/-- A chat message, `interface message { role, content }` of LLM.ts. -/
structure message where
  role : String
  content : String
deriving DecidableEq, Repr

/-- One element of the JSON conversation log, the `jsonLog` object built
by `GptRequest.fetch`.  `duration` is the elapsed-millisecond reading
(the code divides by 1000 for display; the quotient plays no role in any
claim). -/
structure LogEntry where
  messages : List message
  time : String
  tokens : Nat
  cost : String
  duration : Nat
deriving DecidableEq, Repr

/-- `GptRequest.appendToLog(jsonLog)`: when the log file does not exist
it is first created holding `[]`; then the file is read, parsed, the new
entry pushed, and the whole array rewritten. -/
def appendToLog (jsonLog : LogEntry) : Option (List LogEntry) → Option (List LogEntry)
  | none => some ([] ++ [jsonLog])
  | some logArray => some (logArray ++ [jsonLog])

/-- `GptRequest.getPrviousRequests()`: reads and parses the log file
(`none` input = the file does not exist, and `fs.readFileSync` throws —
result `none`), takes `slice(-1)`, and returns the last entry's
`messages`, or `[]` when the parsed array is empty. -/
def getPrviousRequests : Option (List LogEntry) → Option (List message)
  | none => none
  | some logContents =>
    match logContents.getLast? with
    | none => some []
    | some lastEntry => some lastEntry.messages

/-- `interface GptResult { text, tokens }` of LLM.ts. -/
structure GptResult where
  text : String
  tokens : Nat
deriving DecidableEq, Repr

/-- Outcome of the provider's batch chat-completion call, at the
boundary `LLM.fetch` consumes: either a response carrying an optional
usage total and an optional first-choice message content, or a thrown
error with its message. -/
inductive BatchOutcome where
  | ok (usage : Option Nat) (content : Option String)
  | err (msg : String)

/-- The non-streaming branch of `LLM.fetch`: tokens default to 0 unless
`response.usage` is present, text defaults to `""` unless a first choice
with a message is present; a thrown error is converted into
`{ text: "Error:" + error.message, tokens: 0 }`. -/
def llmFetchBatch : BatchOutcome → GptResult
  | .ok usage content => ⟨content.getD "", usage.getD 0⟩
  | .err msg => ⟨"Error:" ++ msg, 0⟩

/-- `text.replace(/\n+/g, "\n")` of `LLM.streamResponse`: every maximal
run of newlines collapses to a single newline. -/
def collapseNlChars : List Char → List Char
  | [] => []
  | [c] => [c]
  | c :: c' :: cs =>
    if c = '\n' && c' = '\n' then collapseNlChars (c' :: cs)
    else c :: collapseNlChars (c' :: cs)

/-- `text.replace(/\n+/g, "\n")` on strings. -/
def collapseNl (s : String) : String :=
  String.mk (collapseNlChars s.data)

/-- `text.match(/^\s*$/)` is non-null: every character is whitespace. -/
def isAllWs (s : String) : Bool :=
  s.data.all jsSpace

/-- The fragment accumulator of `LLM.streamResponse`: `first` is the
`first` flag, `response` the accumulated text.  A falsy (empty) delta is
skipped without clearing `first`; the first truthy delta, when wholly
whitespace, is dropped; every other truthy delta has its newline runs
collapsed and is appended; `first` clears on every truthy delta. -/
def streamGo : Bool → String → List String → String
  | _, response, [] => response
  | first, response, text :: restFrags =>
    if text = "" then streamGo first response restFrags
    else if first && isAllWs text then streamGo false response restFrags
    else streamGo false (response ++ collapseNl text) restFrags

/-- Outcome of the provider's streaming call at the boundary
`LLM.streamResponse` consumes: either the ordered delta contents
(`parsed.choices[0].delta.content` of each data line, `""` for an absent
content) followed by the `[DONE]` marker with an optional usage total,
or an error thrown before/at the request (the only error the code
catches). -/
inductive StreamOutcome where
  | done (frags : List String) (usage : Option Nat)
  | errBefore (msg : String)

/-- `LLM.streamResponse`: on `[DONE]` it resolves with the accumulated
text and the usage total when present (0 otherwise); on a caught error
it resolves — intentionally not rejects — with
`{ text: "Error:" + error.message, tokens: 0 }`. -/
def streamResponse : StreamOutcome → GptResult
  | .done frags usage => ⟨streamGo true "" frags, usage.getD 0⟩
  | .errBefore msg => ⟨"Error:" ++ msg, 0⟩

/-- JS `String.prototype.trim`: strip leading and trailing whitespace. -/
def jsTrimChars (l : List Char) : List Char :=
  ((l.dropWhile jsSpace).reverse.dropWhile jsSpace).reverse

/-- JS `response.trim()` on strings. -/
def jsTrim (s : String) : String :=
  String.mk (jsTrimChars s.data)

/-- The options bag threaded through `GptRequest` (the command-line
flags relevant to the modelled paths). -/
structure Options where
  chat : Bool := false
  stream : Bool := false
  dryrun : Bool := false
  stats : Bool := false
  save : Bool := false
  model : Option String := none

/-- What `GptRequest.fetch` produces: the returned (trimmed) response
text, the `jsonLog` entry it built, and the log state after
`appendToLog`. -/
structure FetchOut where
  response : String
  entry : LogEntry
  newLog : Option (List LogEntry)
deriving DecidableEq, Repr

/-- `GptRequest.fetch(request)`: seed `messages` from
`getPrviousRequests()` when `--chat` (its exception propagates: result
`none`), push the user message, call the backend (`gpt.fetch`), replace
a zero token count by `countTokens(request + gptResult.text)`, compute
the cost string (only for the default model `gpt-3.5-turbo`), push the
trimmed response as the assistant message, append the `jsonLog` entry to
the log, and return the trimmed response.  `backend` abstracts
`gpt.fetch(messages, options, spinner)`; `countTokens` the gptoken
estimator; `costOf` the numeric formatting of
`tokens * TOKEN_COST`; `time` and `duration` the wall clock. -/
def gptRequestFetch (countTokens : String → Nat) (costOf : Nat → String)
    (opts : Options) (backend : List message → GptResult)
    (time : String) (duration : Nat)
    (logState : Option (List LogEntry)) (request : String) : Option FetchOut :=
  match (if opts.chat then getPrviousRequests logState else some []) with
  | none => none
  | some prev =>
    let messages := prev ++ [⟨"user", request⟩]
    let gptResult := backend messages
    let tokens :=
      if gptResult.tokens = 0 then countTokens (request ++ gptResult.text)
      else gptResult.tokens
    let cost :=
      if opts.model = none || opts.model = some "gpt-3.5-turbo" then
        "$" ++ costOf tokens
      else "Cost only available for GPT-3.5-turbo"
    let response := jsTrim gptResult.text
    let entry : LogEntry :=
      ⟨messages ++ [⟨"assistant", response⟩], time, tokens, cost, duration⟩
    some ⟨response, entry, appendToLog entry logState⟩

/-- Observable outcome of `GptRequest.submitChat` after the request text
has been assembled: whether the backend (`this.fetch`, hence
`gpt.fetch`) was reached, the final log state, and which of the three
exits was taken (expansion error via `this.error`, dry-run print, or a
completed exchange). -/
structure SubmitResult where
  backendCalled : Bool
  finalLog : Option (List LogEntry)
  errorText : Option String
  dryRunText : Option String
  response : Option String
deriving DecidableEq, Repr

/-- `GptRequest.submitChat` from the directive-expansion step on
(lines 112-124 of the source): run `importFiles`; on failure report the
text and return; on `--dryrun` print the expanded text and the
`countTokens` estimate and return; otherwise run `this.fetch` on the
expanded text (a `getPrviousRequests` exception escapes before the
backend is contacted). -/
def submitChat (fs : String → Option String) (home : String)
    (countTokens : String → Nat) (costOf : Nat → String) (opts : Options)
    (backend : List message → GptResult) (time : String) (duration : Nat)
    (logState : Option (List LogEntry)) (request : String) : SubmitResult :=
  match importFiles fs home request with
  | (false, text, _) => ⟨false, logState, some text, none, none⟩
  | (true, text, _) =>
    if opts.dryrun then ⟨false, logState, none, some text, none⟩
    else
      match gptRequestFetch countTokens costOf opts backend time duration logState text with
      | none => ⟨false, logState, none, none, none⟩
      | some out => ⟨true, out.newLog, none, none, some out.response⟩

/-- A line the expansion loop gets past without aborting: either it is
not a directive, or its file is readable. -/
def okLine (fs : String → Option String) (home : String) (line : String) : Prop :=
  (matchImport line || matchDiff line) = false ∨
    (fs (normalizePath home (fnameOf line))).isSome = true

/-! ### Structural lemmas about line splitting and joining -/

lemma splitNlChars_ne_nil (cs : List Char) : splitNlChars cs ≠ [] := by
  cases cs with
  | nil => simp [splitNlChars]
  | cons c cs =>
    simp only [splitNlChars]
    by_cases hc : c = '\n'
    · simp [hc]
    · simp only [hc, if_false]
      cases splitNlChars cs <;> simp

lemma joinNlChars_cons_cons (c : Char) (h : List Char) (t : List (List Char)) :
    joinNlChars ((c :: h) :: t) = c :: joinNlChars (h :: t) := by
  cases t <;> rfl

lemma joinNlChars_splitNlChars (cs : List Char) :
    joinNlChars (splitNlChars cs) = cs := by
  induction cs with
  | nil => rfl
  | cons c cs ih =>
    simp only [splitNlChars]
    by_cases hc : c = '\n'
    · subst hc
      simp only [if_pos rfl]
      obtain ⟨h, t, ht⟩ := List.exists_cons_of_ne_nil (splitNlChars_ne_nil cs)
      rw [ht]
      rw [ht] at ih
      show joinNlChars ([] :: h :: t) = '\n' :: cs
      simp only [joinNlChars, List.nil_append]
      rw [ih]
    · simp only [hc, if_false]
      obtain ⟨h, t, ht⟩ := List.exists_cons_of_ne_nil (splitNlChars_ne_nil cs)
      rw [ht]
      rw [ht] at ih
      rw [joinNlChars_cons_cons, ih]

lemma joinNl_splitNl (s : String) : joinNl (splitNl s) = s := by
  show String.mk (joinNlChars ((splitNlChars s.data).map String.mk |>.map String.data)) = s
  rw [List.map_map]
  have hcomp : (String.data ∘ String.mk) = id := funext fun x => rfl
  rw [hcomp, List.map_id, joinNlChars_splitNlChars]

lemma mem_splitNlChars_no_nl (cs : List Char) :
    ∀ f ∈ splitNlChars cs, '\n' ∉ f := by
  induction cs with
  | nil =>
    intro f hf
    simp only [splitNlChars, List.mem_singleton] at hf
    subst hf
    simp
  | cons c cs ih =>
    intro f hf
    by_cases hc : c = '\n'
    · subst hc
      simp only [splitNlChars, if_true, ite_true, List.mem_cons] at hf
      rcases hf with rfl | hf
      · simp
      · exact ih f hf
    · obtain ⟨h, t, ht⟩ := List.exists_cons_of_ne_nil (splitNlChars_ne_nil cs)
      simp only [splitNlChars, hc, if_false, ht, List.mem_cons] at hf
      rcases hf with rfl | hf
      · intro hmem
        rcases List.mem_cons.mp hmem with h1 | h1
        · exact hc h1.symm
        · exact ih h (ht ▸ List.mem_cons_self _ _) h1
      · exact ih f (ht ▸ List.mem_cons_of_mem _ hf)

lemma splitNlChars_no_nl (l : List Char) (h : '\n' ∉ l) : splitNlChars l = [l] := by
  induction l with
  | nil => rfl
  | cons c cs ih =>
    simp only [List.mem_cons, not_or] at h
    simp only [splitNlChars, Ne.symm h.1, if_false, ih h.2]

lemma splitNlChars_append_nl (l rest : List Char) (h : '\n' ∉ l) :
    splitNlChars (l ++ '\n' :: rest) = l :: splitNlChars rest := by
  induction l with
  | nil => simp [splitNlChars]
  | cons c cs ih =>
    simp only [List.mem_cons, not_or] at h
    simp only [List.cons_append, splitNlChars, List.append_eq, Ne.symm h.1, if_false,
      ih h.2]

lemma splitNlChars_joinNlChars (lss : List (List Char))
    (h : ∀ l ∈ lss, '\n' ∉ l) (hne : lss ≠ []) :
    splitNlChars (joinNlChars lss) = lss := by
  induction lss with
  | nil => exact absurd rfl hne
  | cons l ls ih =>
    cases ls with
    | nil => exact splitNlChars_no_nl l (h l (List.mem_cons_self _ _))
    | cons l2 ls2 =>
      show splitNlChars (l ++ '\n' :: joinNlChars (l2 :: ls2)) = _
      rw [splitNlChars_append_nl l _ (h l (List.mem_cons_self _ _))]
      rw [ih (fun x hx => h x (List.mem_cons_of_mem _ hx)) (by simp)]

lemma mem_splitNl_no_nl (s : String) :
    ∀ l ∈ splitNl s, '\n' ∉ l.data := by
  intro l hl
  simp only [splitNl, List.mem_map] at hl
  obtain ⟨f, hf, rfl⟩ := hl
  exact mem_splitNlChars_no_nl s.data f hf

lemma importFilesGo_plain (fs : String → Option String) (home : String)
    (ls : List String) (h : ∀ l ∈ ls, (matchImport l || matchDiff l) = false) :
    ∀ m d, importFilesGo fs home ls m d = (true, joinNl (m ++ ls), d) := by
  induction ls with
  | nil => intro m d; simp [importFilesGo]
  | cons line rest ih =>
    intro m d
    have hline := h line (List.mem_cons_self _ _)
    simp only [importFilesGo, hline, Bool.false_eq_true, if_false]
    rw [ih (fun l hl => h l (List.mem_cons_of_mem _ hl))]
    simp [List.append_assoc]

lemma appendToLog_eq (e : LogEntry) (s : Option (List LogEntry)) :
    appendToLog e s = some (s.getD [] ++ [e]) := by
  cases s <;> rfl

lemma splitNl_joinNl (ls : List String)
    (h : ∀ l ∈ ls, '\n' ∉ l.data) (hne : ls ≠ []) :
    splitNl (joinNl ls) = ls := by
  show (splitNlChars (String.mk (joinNlChars (ls.map String.data))).data).map String.mk = ls
  show (splitNlChars (joinNlChars (ls.map String.data))).map String.mk = ls
  rw [splitNlChars_joinNlChars (ls.map String.data)
    (by intro l hl; obtain ⟨x, hx, rfl⟩ := List.mem_map.mp hl; exact h x hx)
    (by simpa using hne)]
  rw [List.map_map]
  have hid : (String.mk ∘ String.data) = id := funext fun x => rfl
  rw [hid, List.map_id]

/-! ### Claims -/

/-- C9: for all request text containing no directive lines, `expand`
(importFiles) returns success, the text unchanged, and an empty
diffTargets list; applying it a second time to the returned text again
returns the same text unchanged (idempotence). -/
theorem importFiles_no_directives_id (fs : String → Option String) (home : String)
    (content : String)
    (h : ∀ line ∈ splitNl content, (matchImport line || matchDiff line) = false) :
    importFiles fs home content = (true, content, []) ∧
      importFiles fs home (importFiles fs home content).2.1 = (true, content, []) := by
  have h1 : importFiles fs home content = (true, content, []) := by
    unfold importFiles
    rw [importFilesGo_plain fs home _ h [] []]
    rw [List.nil_append, joinNl_splitNl]
  refine ⟨h1, ?_⟩
  rw [h1]
  exact h1

/-- Witness for C9 at a concrete directive-free request text. -/
theorem importFiles_no_directives_id_witness :
    importFiles (fun _ => none) "" "hello\nworld" = (true, "hello\nworld", []) ∧
      importFiles (fun _ => none) ""
          (importFiles (fun _ => none) "" "hello\nworld").2.1
        = (true, "hello\nworld", []) :=
  importFiles_no_directives_id (fun _ => none) "" "hello\nworld" (by decide)

/-- C6: for every prior log state, `append(entry)` followed by
`lastConversation()` returns exactly the messages stored in the entry;
and after appending any nonempty batch of entries (the last being
`e`), `lastConversation()` returns only `e`'s messages, never an
earlier entry's. -/
theorem appendToLog_getPrviousRequests_roundtrip (s : Option (List LogEntry))
    (es : List LogEntry) (e : LogEntry) :
    getPrviousRequests (appendToLog e s) = some e.messages ∧
      getPrviousRequests (List.foldl (fun st en => appendToLog en st) s (es ++ [e]))
        = some e.messages := by
  have single : ∀ s' : Option (List LogEntry),
      getPrviousRequests (appendToLog e s') = some e.messages := by
    intro s'
    rw [appendToLog_eq]
    simp [getPrviousRequests, List.getLast?_concat]
  refine ⟨single s, ?_⟩
  induction es generalizing s with
  | nil =>
    simp only [List.nil_append, List.foldl_cons, List.foldl_nil]
    exact single s
  | cons e' es ih =>
    simp only [List.cons_append, List.foldl_cons]
    exact ih _

/-- C2 counterexample: when the log file does not exist,
`getPrviousRequests` propagates the `fs.readFileSync` failure (modelled
as `none`) instead of returning the empty message sequence the claim
asserts. -/
theorem getPrviousRequests_absent_raises :
    getPrviousRequests none = none ∧ getPrviousRequests none ≠ some [] :=
  ⟨rfl, by simp [getPrviousRequests]⟩

/-- C2 amended: when the log file exists, `getPrviousRequests` returns
the messages of the most recently appended entry (the empty sequence for
an empty log); when the file does not exist the read fails and the
failure propagates (`none`), rather than an empty sequence being
returned. -/
theorem getPrviousRequests_spec (s : Option (List LogEntry)) :
    getPrviousRequests s
      = s.map (fun l => ((l.getLast?).map LogEntry.messages).getD []) := by
  cases s with
  | none => rfl
  | some l => cases h : l.getLast? <;> simp [getPrviousRequests, h]

/-! ### Streaming accumulation (C4, C3, C7) -/

lemma strJoin_cons (s : String) (l : List String) :
    String.join (s :: l) = s ++ String.join l := by
  apply String.ext
  simp [String.join_eq, String.data_append]

lemma streamGo_false (frags : List String) :
    ∀ acc, streamGo false acc frags
      = acc ++ String.join ((frags.filter (fun t => t != "")).map collapseNl) := by
  induction frags with
  | nil => intro acc; apply String.ext; simp [streamGo, String.join_eq]
  | cons t ts ih =>
    intro acc
    by_cases ht : t = ""
    · subst ht
      simp only [streamGo, if_pos rfl]
      rw [ih acc]
      simp
    · have hfilter : List.filter (fun x => x != "") (t :: ts)
          = t :: List.filter (fun x => x != "") ts := by
        rw [List.filter_cons, if_pos (by simp [ht])]
      simp only [streamGo]
      rw [if_neg ht]
      simp only [Bool.false_and, Bool.false_eq_true, if_false]
      rw [ih (acc ++ collapseNl t), hfilter]
      simp [strJoin_cons, String.append_assoc]

lemma streamGo_true (frags : List String) :
    streamGo true "" frags
      = match frags.filter (fun t => t != "") with
        | [] => ""
        | h :: t =>
          (if isAllWs h then "" else collapseNl h) ++ String.join (t.map collapseNl) := by
  induction frags with
  | nil => rfl
  | cons t ts ih =>
    by_cases ht : t = ""
    · subst ht
      have hfilter : List.filter (fun x => x != "") ("" :: ts)
          = List.filter (fun x => x != "") ts := by
        rw [List.filter_cons, if_neg (by simp)]
      simp only [streamGo, if_pos rfl]
      rw [ih, hfilter]
      simp
    · have hfilter : List.filter (fun x => x != "") (t :: ts)
          = t :: List.filter (fun x => x != "") ts := by
        rw [List.filter_cons, if_pos (by simp [ht])]
      by_cases hws : isAllWs t = true
      · simp only [streamGo, Bool.true_and]
        rw [if_neg ht, if_pos hws, streamGo_false ts "", hfilter]
        simp [hws]
      · simp only [streamGo, Bool.true_and]
        rw [if_neg ht, if_neg hws, streamGo_false ts ("" ++ collapseNl t), hfilter]
        simp [hws]

/-- C4 counterexample: a single streamed fragment with two consecutive
newlines arrives; the finalized text has them collapsed to one, so it is
not the concatenation of the fragment texts. -/
theorem streamResponse_not_plain_concat :
    (streamResponse (.done ["a\n\nb"] none)).text = "a\nb" ∧
      (streamResponse (.done ["a\n\nb"] none)).text ≠ String.join ["a\n\nb"] := by
  decide

/-- C4 amended: the finalized streaming text is the concatenation, in
arrival order, of the fragment texts after (i) discarding empty
fragments, (ii) discarding the first nonempty fragment when it is
wholly whitespace, and (iii) collapsing every run of newlines inside a
kept fragment to a single newline. -/
theorem streamResponse_text_spec (frags : List String) (usage : Option Nat) :
    (streamResponse (.done frags usage)).text
      = match frags.filter (fun t => t != "") with
        | [] => ""
        | h :: t =>
          (if isAllWs h then "" else collapseNl h) ++ String.join (t.map collapseNl) :=
  streamGo_true frags

/-! ### GptRequest.fetch logging (C3, C7) -/

/-- C3 counterexample: streaming with no usage total reported
(`tokens = 0` from the backend); the appended LogEntry records the local
estimate (here `String.length ("ab" ++ "cd") = 4`), not 0 — the `tokens`
variable is overwritten before `jsonLog` is built. -/
theorem gptRequestFetch_logs_estimate_not_zero :
    (gptRequestFetch String.length (fun _ => "") { stream := true }
        (fun _ => streamResponse (.done ["cd"] none)) "t" 0 (some []) "ab").map
        (fun out => out.entry.tokens) = some 4 ∧ (4 : Nat) ≠ 0 := by
  constructor
  · rfl
  · decide

/-- C3 amended: in streaming mode, when the backend reports no usage
total (token count 0), the LogEntry appended to the conversation log
records the local estimate `countTokens(request + responseText)` — the
same value the displayed statistics use — not the reported 0. -/
theorem gptRequestFetch_zero_tokens_logs_estimate
    (ct : String → Nat) (costOf : Nat → String) (opts : Options)
    (backend : List message → GptResult) (time : String) (dur : Nat)
    (s : Option (List LogEntry)) (req : String) (prev : List message)
    (hprev : (if opts.chat then getPrviousRequests s else some []) = some prev)
    (hg : (backend (prev ++ [⟨"user", req⟩])).tokens = 0) :
    ∃ out, gptRequestFetch ct costOf opts backend time dur s req = some out ∧
      out.entry.tokens = ct (req ++ (backend (prev ++ [⟨"user", req⟩])).text) ∧
      out.newLog = appendToLog out.entry s := by
  unfold gptRequestFetch
  rw [hprev]
  simp only [hg, if_pos rfl]
  exact ⟨_, rfl, rfl, rfl⟩

/-- Witness for C3's amended theorem at a concrete streaming exchange. -/
theorem gptRequestFetch_zero_tokens_logs_estimate_witness :
    ∃ out, gptRequestFetch String.length (fun _ => "") { stream := true }
        (fun _ => streamResponse (.done ["cd"] none)) "t" 0 (some []) "ab"
        = some out ∧
      out.entry.tokens
        = String.length ("ab" ++ ((fun _ => streamResponse (.done ["cd"] none))
            (([] : List message) ++ [⟨"user", "ab"⟩])).text) ∧
      out.newLog = appendToLog out.entry (some []) :=
  gptRequestFetch_zero_tokens_logs_estimate String.length (fun _ => "")
    { stream := true } (fun _ => streamResponse (.done ["cd"] none)) "t" 0
    (some []) "ab" [] rfl rfl

lemma errPrefix_trim (m : String) :
    "Error:".data <+: (jsTrim ("Error:" ++ m)).data := by
  show "Error:".data <+: jsTrimChars ("Error:" ++ m).data
  rw [String.data_append]
  unfold jsTrimChars
  have h1 : List.dropWhile jsSpace ("Error:".data ++ m.data)
      = "Error:".data ++ m.data := by
    show List.dropWhile jsSpace ('E' :: ("rror:".data ++ m.data))
        = 'E' :: ("rror:".data ++ m.data)
    rw [List.dropWhile_cons, if_neg (by decide)]
  rw [h1, List.reverse_append, List.dropWhile_append]
  by_cases hcase : (List.dropWhile jsSpace m.data.reverse).isEmpty = true
  · rw [if_pos hcase]
    have h2 : List.dropWhile jsSpace "Error:".data.reverse
        = "Error:".data.reverse := by decide
    rw [h2, List.reverse_reverse]
  · rw [if_neg hcase, List.reverse_append, List.reverse_reverse]
    exact List.prefix_append _ _

/-- C7: every backend-level error — a batch exception or a streaming
transport failure — is returned as a value (not raised) whose text is
`"Error:" + message` (so it begins with the `Error:` marker) and whose
token count is 0; `GptRequest.fetch` still appends a LogEntry whose
final (assistant) message carries that error text (trimmed, still
`Error:`-marked). -/
theorem backend_error_logged
    (m : String) (g : GptResult)
    (hg : g = llmFetchBatch (.err m) ∨ g = streamResponse (.errBefore m))
    (ct : String → Nat) (costOf : Nat → String) (opts : Options)
    (backend : List message → GptResult) (hb : ∀ ms, backend ms = g)
    (time : String) (dur : Nat) (s : Option (List LogEntry)) (req : String)
    (prev : List message)
    (hprev : (if opts.chat then getPrviousRequests s else some []) = some prev) :
    g.text = "Error:" ++ m ∧ g.tokens = 0 ∧
      ∃ out, gptRequestFetch ct costOf opts backend time dur s req = some out ∧
        out.newLog = some (s.getD [] ++ [out.entry]) ∧
        out.entry.messages.getLast? = some ⟨"assistant", jsTrim ("Error:" ++ m)⟩ ∧
        "Error:".data <+: (jsTrim ("Error:" ++ m)).data := by
  have hgeq : g = ⟨"Error:" ++ m, 0⟩ := by
    rcases hg with h | h
    · exact h
    · exact h
  refine ⟨by rw [hgeq], by rw [hgeq], ?_⟩
  unfold gptRequestFetch
  rw [hprev]
  simp only [hb, hgeq]
  refine ⟨_, rfl, ?_, ?_, errPrefix_trim m⟩
  · rw [appendToLog_eq]
  · exact List.getLast?_concat _

/-- Witness for C7 at a concrete batch-exception exchange. -/
theorem backend_error_logged_witness :
    (llmFetchBatch (.err "boom")).text = "Error:" ++ "boom" ∧
      (llmFetchBatch (.err "boom")).tokens = 0 ∧
      ∃ out, gptRequestFetch String.length (fun _ => "") {}
          (fun _ => llmFetchBatch (.err "boom")) "t" 0 (some []) "hi"
          = some out ∧
        out.newLog = some ((some ([] : List LogEntry)).getD [] ++ [out.entry]) ∧
        out.entry.messages.getLast?
          = some ⟨"assistant", jsTrim ("Error:" ++ "boom")⟩ ∧
        "Error:".data <+: (jsTrim ("Error:" ++ "boom")).data :=
  backend_error_logged "boom" (llmFetchBatch (.err "boom")) (Or.inl rfl)
    String.length (fun _ => "") {} (fun _ => llmFetchBatch (.err "boom"))
    (fun _ => rfl) "t" 0 (some []) "hi" [] rfl

/-! ### submitChat short-circuits (C8) -/

/-- C8: when directive expansion fails, and likewise on a dry run, the
session controller returns without contacting the backend and without
writing to the conversation log. -/
theorem submitChat_no_backend_no_log
    (fs : String → Option String) (home : String) (ct : String → Nat)
    (costOf : Nat → String) (opts : Options) (backend : List message → GptResult)
    (time : String) (dur : Nat) (s : Option (List LogEntry)) (request : String)
    (h : (importFiles fs home request).1 = false ∨ opts.dryrun = true) :
    (submitChat fs home ct costOf opts backend time dur s request).backendCalled
        = false ∧
      (submitChat fs home ct costOf opts backend time dur s request).finalLog = s := by
  rcases hr : importFiles fs home request with ⟨b, text, d⟩
  cases b
  · simp [submitChat, hr]
  · have hd : opts.dryrun = true := by
      rcases h with h | h
      · rw [hr] at h
        exact absurd h (by simp)
      · exact h
    simp [submitChat, hr, hd]

/-- Witness for C8 at a concrete failing expansion (missing file). -/
theorem submitChat_no_backend_no_log_witness :
    (submitChat (fun _ => none) "" String.length (fun _ => "") {}
        (fun _ => llmFetchBatch (.err "x")) "t" 0 (some []) "#import zzz").backendCalled
        = false ∧
      (submitChat (fun _ => none) "" String.length (fun _ => "") {}
        (fun _ => llmFetchBatch (.err "x")) "t" 0 (some []) "#import zzz").finalLog
        = some [] :=
  submitChat_no_backend_no_log (fun _ => none) "" String.length (fun _ => "") {}
    (fun _ => llmFetchBatch (.err "x")) "t" 0 (some []) "#import zzz"
    (Or.inl (by decide))

/-! ### Failure location in the expansion pass (C1, C5, C10) -/

lemma importFilesGo_ok_skip (fs : String → Option String) (home : String)
    (pre : List String) :
    ∀ m d, (∀ l ∈ pre, okLine fs home l) →
      ∃ m' d', ∀ ls, importFilesGo fs home (pre ++ ls) m d
        = importFilesGo fs home ls m' d' := by
  induction pre with
  | nil => exact fun m d _ => ⟨m, d, fun ls => rfl⟩
  | cons line rest ih =>
    intro m d hok
    have hline := hok line (List.mem_cons_self _ _)
    have htail := fun l hl => hok l (List.mem_cons_of_mem _ hl)
    by_cases hmatch : (matchImport line || matchDiff line) = true
    · have hsome : (fs (normalizePath home (fnameOf line))).isSome = true := by
        rcases hline with h | h
        · rw [hmatch] at h
          exact absurd h (by simp)
        · exact h
      obtain ⟨contents, hc⟩ := Option.isSome_iff_exists.mp hsome
      obtain ⟨m', d', hrec⟩ := ih (m ++ splitNl contents)
        (if matchDiff line then d ++ [normalizePath home (fnameOf line)] else d) htail
      refine ⟨m', d', fun ls => ?_⟩
      rw [List.cons_append]
      simp only [importFilesGo, hmatch, if_true, hc]
      exact hrec ls
    · have hmatch' : (matchImport line || matchDiff line) = false := by
        simpa using hmatch
      obtain ⟨m', d', hrec⟩ := ih (m ++ [line]) d htail
      refine ⟨m', d', fun ls => ?_⟩
      rw [List.cons_append]
      simp only [importFilesGo, hmatch', Bool.false_eq_true, if_false]
      exact hrec ls

lemma importFilesGo_fail_head (fs : String → Option String) (home : String)
    (line : String) (rest m d : List String)
    (hdir : (matchImport line || matchDiff line) = true)
    (hfail : fs (normalizePath home (fnameOf line)) = none) :
    importFilesGo fs home (line :: rest) m d
      = (false,
          "#import file " ++ normalizePath home (fnameOf line) ++ " was not found",
          if matchDiff line then d ++ [normalizePath home (fnameOf line)] else d) := by
  simp only [importFilesGo, hdir, if_true, hfail]

/-- C1 (code bug): the directive regex permits leading whitespace, but
the path extraction `line.split(/\s+/)[1]` then yields the directive
keyword itself instead of the path.  Without leading whitespace the
directive's file is spliced in place of the line; with one leading space
the same directive aborts, reporting the bogus path `#import`, even
though `a.txt` is readable. -/
theorem importFiles_leadingWs_extraction_bug :
    importFiles (fun p => if p = "a.txt" then some "hello" else none) ""
        "#import a.txt" = (true, "hello", []) ∧
      importFiles (fun p => if p = "a.txt" then some "hello" else none) ""
        " #import a.txt" = (false, "#import file #import was not found", []) := by
  decide

/-- C5 counterexample: with a leading space before `#import`, the
failure text reports the extracted token `#import`, not the referenced
file's resolved path `zzz`, so the claim's "text containing that file's
resolved path" fails as stated. -/
theorem importFiles_leadingWs_wrong_path :
    (importFiles (fun _ => none) "" " #import zzz").1 = false ∧
      ¬ ((normalizePath "" "zzz").data
          <:+: (importFiles (fun _ => none) "" " #import zzz").2.1.data) := by
  decide

/-- C5 amended: when the first directive line whose file read fails is
reached (every earlier line being a non-directive or a readable
directive), `expand` returns success:false with the not-found text built
from the resolved second whitespace-field of that line (the referenced
path whenever the directive has no leading whitespace), that resolved
path occurs in the text, and the lines after the failing directive do
not influence the result: the outcome equals the expansion of the
truncated input ending at the failing line. -/
theorem importFiles_first_failure_aborts
    (fs : String → Option String) (home content : String)
    (pre rest : List String) (line : String)
    (hsplit : splitNl content = pre ++ line :: rest)
    (hok : ∀ l ∈ pre, okLine fs home l)
    (hdir : (matchImport line || matchDiff line) = true)
    (hfail : fs (normalizePath home (fnameOf line)) = none) :
    (importFiles fs home content).1 = false ∧
      (importFiles fs home content).2.1
        = "#import file " ++ normalizePath home (fnameOf line)
            ++ " was not found" ∧
      (normalizePath home (fnameOf line)).data
          <:+: (importFiles fs home content).2.1.data ∧
      importFiles fs home content
        = importFiles fs home (joinNl (pre ++ [line])) := by
  obtain ⟨m', d', hrec⟩ := importFilesGo_ok_skip fs home pre [] [] hok
  have h1 : importFiles fs home content = importFilesGo fs home (line :: rest) m' d' := by
    unfold importFiles
    rw [hsplit]
    exact hrec (line :: rest)
  have h2 : importFiles fs home (joinNl (pre ++ [line]))
      = importFilesGo fs home [line] m' d' := by
    unfold importFiles
    have hnl : ∀ l ∈ pre ++ [line], '\n' ∉ l.data := by
      intro l hl
      apply mem_splitNl_no_nl content
      rw [hsplit]
      rcases List.mem_append.mp hl with h | h
      · exact List.mem_append_left _ h
      · rw [List.mem_singleton.mp h]
        exact List.mem_append_right _ (List.mem_cons_self _ _)
    rw [splitNl_joinNl _ hnl (by simp)]
    exact hrec [line]
  refine ⟨?_, ?_, ?_, ?_⟩
  · rw [h1, importFilesGo_fail_head fs home line rest m' d' hdir hfail]
  · rw [h1, importFilesGo_fail_head fs home line rest m' d' hdir hfail]
  · rw [h1, importFilesGo_fail_head fs home line rest m' d' hdir hfail]
    show (normalizePath home (fnameOf line)).data
      <:+: ("#import file " ++ normalizePath home (fnameOf line)
              ++ " was not found").data
    rw [String.data_append, String.data_append]
    exact ⟨"#import file ".data, " was not found".data, rfl⟩
  · rw [h1, h2, importFilesGo_fail_head fs home line rest m' d' hdir hfail,
      importFilesGo_fail_head fs home line [] m' d' hdir hfail]

/-- Witness for C5's amended theorem at a concrete missing file. -/
theorem importFiles_first_failure_aborts_witness :
    (importFiles (fun _ => none) "" "#import zzz").1 = false ∧
      (importFiles (fun _ => none) "" "#import zzz").2.1
        = "#import file " ++ normalizePath "" (fnameOf "#import zzz")
            ++ " was not found" ∧
      (normalizePath "" (fnameOf "#import zzz")).data
          <:+: (importFiles (fun _ => none) "" "#import zzz").2.1.data ∧
      importFiles (fun _ => none) "" "#import zzz"
        = importFiles (fun _ => none) "" (joinNl ([] ++ ["#import zzz"])) :=
  importFiles_first_failure_aborts (fun _ => none) "" "#import zzz" [] []
    "#import zzz" (by decide) (by simp) (by decide) rfl

/-- C10: when expansion fails on a `#diff` directive whose file cannot
be read (after earlier lines that pass), the failing resolved path is
the last element of the diffTargets list returned with the failure: it
was pushed before the read was attempted. -/
theorem importFiles_diff_fail_last_target
    (fs : String → Option String) (home content : String)
    (pre rest : List String) (line : String)
    (hsplit : splitNl content = pre ++ line :: rest)
    (hok : ∀ l ∈ pre, okLine fs home l)
    (hdiff : matchDiff line = true)
    (hfail : fs (normalizePath home (fnameOf line)) = none) :
    (importFiles fs home content).1 = false ∧
      (importFiles fs home content).2.2.getLast?
        = some (normalizePath home (fnameOf line)) := by
  obtain ⟨m', d', hrec⟩ := importFilesGo_ok_skip fs home pre [] [] hok
  have hdir : (matchImport line || matchDiff line) = true := by simp [hdiff]
  have h1 : importFiles fs home content = importFilesGo fs home (line :: rest) m' d' := by
    unfold importFiles
    rw [hsplit]
    exact hrec (line :: rest)
  rw [h1, importFilesGo_fail_head fs home line rest m' d' hdir hfail]
  refine ⟨rfl, ?_⟩
  show (if matchDiff line then d' ++ [normalizePath home (fnameOf line)]
      else d').getLast? = _
  rw [if_pos hdiff]
  exact List.getLast?_concat _

/-- Witness for C10 at a concrete unreadable `#diff` target. -/
theorem importFiles_diff_fail_last_target_witness :
    (importFiles (fun _ => none) "" "a\n#diff zzz\nnever").1 = false ∧
      (importFiles (fun _ => none) "" "a\n#diff zzz\nnever").2.2.getLast?
        = some (normalizePath "" (fnameOf "#diff zzz")) :=
  importFiles_diff_fail_last_target (fun _ => none) "" "a\n#diff zzz\nnever"
    ["a"] ["never"] "#diff zzz" (by decide)
    (by intro l hl; cases List.mem_singleton.mp hl; left; decide)
    (by decide) rfl
